import Mathlib

/-!
Verification of the httpBackupGo core against its design document.

The Go sources are shallowly embedded: pure computations become Lean
functions, the ambient effects (filesystem, HTTP, clock, environment
variables) become explicit inputs, and the two event loops (the scheduler
in `main.go` and the per-run worker pool in `backup.RunAllEnabled`) become
labelled transition systems driven by lists of atomic events.

Where the repository holds two revisions of the same Go file (a legacy
`log`-based `main.go`/runner and the current `slog`-based ones), the
definitions follow the current revision: the one with the `logging`
package, the disabled-scheduler support and the retention call inside
`RunOneSite`.
-/

namespace HttpBackupGo

/-! ## String primitives (Go `strings` package, as used by the sources) -/

/-- The whitespace class of Go `unicode.IsSpace` restricted to the code
points the config plausibly contains: `\t \n \v \f \r`, space, NEL, NBSP. -/
def isGoSpace (c : Char) : Bool :=
  c.val == 9 || c.val == 10 || c.val == 11 || c.val == 12 ||
  c.val == 13 || c.val == 32 || c.val == 0x85 || c.val == 0xA0

/-- Drop the longest suffix whose characters all satisfy `p`. -/
def dropWhileEnd (p : Char → Bool) : List Char → List Char
  | [] => []
  | a :: l =>
    let r := dropWhileEnd p l
    if r.isEmpty && p a then [] else a :: r

/-- Go `strings.TrimSpace`: remove leading and trailing whitespace. -/
def trimSpace (s : String) : String :=
  ⟨dropWhileEnd isGoSpace (s.data.dropWhile isGoSpace)⟩

/-- Go `strings.ToLower` (ASCII case mapping suffices for the claims). -/
def toLowerGo (s : String) : String :=
  ⟨s.data.map Char.toLower⟩

/-- Go `strings.HasPrefix`. -/
def hasPfx (s pre : String) : Bool :=
  pre.data.isPrefixOf s.data

/-- Go `strings.HasSuffix`. -/
def hasSfx (s suf : String) : Bool :=
  suf.data.reverse.isPrefixOf s.data.reverse

/-- Go `filepath.Join` of two components on a Unix host, for the
well-formed component names the program builds (`Clean` is the identity
on them). -/
def joinPath (a b : String) : String :=
  a ++ "/" ++ b

/-! ## Config data model (`config/config.go`) -/

structure Site where
  Enabled : Bool
  Name : String
  Url : String
deriving Repr, DecidableEq

structure Config where
  WebListenAddr : String
  IntervalMinutes : Int
  BackupFolder : String
  Retention : Int
  Sites : List Site
deriving Repr, DecidableEq

/-- `config.defaultBackupFolder`: `%ProgramData%\httpBackupGo\Backups`
when the `ProgramData` environment variable `pd` is set, else `Backups`.
The environment is passed explicitly. -/
def defaultBackupFolder (pd : String) : String :=
  if pd = "" then "Backups" else joinPath (joinPath pd "httpBackupGo") "Backups"

/-- The site-normalization loop of `Config.ValidateAndNormalize`: trim
both fields, drop entries whose trimmed name and url are both empty, and
for non-empty names drop case-insensitive duplicates after the first.
`seen` is the set of lowercased names already kept (Go's `seen` map). -/
def normSitesAux : List String → List Site → List Site
  | _, [] => []
  | seen, s :: rest =>
    let name := trimSpace s.Name
    let url := trimSpace s.Url
    if name = "" ∧ url = "" then
      normSitesAux seen rest
    else if name ≠ "" ∧ toLowerGo name ∈ seen then
      normSitesAux seen rest
    else
      { Enabled := s.Enabled, Name := name, Url := url } ::
        normSitesAux (if name = "" then seen else toLowerGo name :: seen) rest

/-- `Config.ValidateAndNormalize` (functional rendering of the in-place
mutation; `pd` is the ambient `ProgramData` environment variable consumed
by `defaultBackupFolder`). -/
def ValidateAndNormalize (pd : String) (c : Config) : Config :=
  let interval := if c.IntervalMinutes < 0 then 1 else c.IntervalMinutes
  let retention := if c.Retention ≤ 0 then 30 else c.Retention
  let bf0 := trimSpace c.BackupFolder
  let bf := if bf0 = "" then defaultBackupFolder pd else bf0
  let wla0 := trimSpace c.WebListenAddr
  let wla := if wla0 = "" then "127.0.0.1:8123" else wla0
  { WebListenAddr := wla
    IntervalMinutes := interval
    BackupFolder := bf
    Retention := retention
    Sites := normSitesAux [] c.Sites }

/-! Spec-side rendering of the duplicate-site policy, for the refinement
half of the dedup claim: an entry is kept exactly when it is not
empty-empty and no EARLIER entry (`pre`) has the same non-empty
case-insensitive trimmed name. -/

/-- Both fields empty after trimming (the "totally empty entry" of the
sources). -/
def bothEmpty (s : Site) : Prop :=
  trimSpace s.Name = "" ∧ trimSpace s.Url = ""

instance (s : Site) : Decidable (bothEmpty s) := by
  unfold bothEmpty; infer_instance

/-- `s` duplicates some earlier entry in `pre`: its trimmed name is
non-empty and case-insensitively equal to that of an earlier entry. -/
def dupOfEarlier (pre : List Site) (s : Site) : Prop :=
  trimSpace s.Name ≠ "" ∧
    ∃ t ∈ pre, trimSpace t.Name ≠ "" ∧
      toLowerGo (trimSpace t.Name) = toLowerGo (trimSpace s.Name)

instance (pre : List Site) (s : Site) : Decidable (dupOfEarlier pre s) := by
  unfold dupOfEarlier; infer_instance

/-- Field-level normalization of one site entry. -/
def normSite (s : Site) : Site :=
  { Enabled := s.Enabled, Name := trimSpace s.Name, Url := trimSpace s.Url }

/-- The spec's words for the site list normalization: walk the list in
order, keep the (trimmed) entry unless it is totally empty or duplicates
an earlier entry's non-empty name. -/
def sitesSpec : List Site → List Site → List Site
  | _, [] => []
  | pre, s :: rest =>
    if bothEmpty s then sitesSpec (pre ++ [s]) rest
    else if dupOfEarlier pre s then sitesSpec (pre ++ [s]) rest
    else normSite s :: sitesSpec (pre ++ [s]) rest

/-! ## Scheduler / orchestrator (`main.go`, current revision)

The control loop is a single consumer of tick, UI-event and shutdown
sources; its state is the `running` atomic flag, the current interval and
whether a ticker channel is armed.  Ghost fields count the run goroutines
alive and the runs ever started.  Each loop iteration is one atomic label;
a trace is a list of labels. -/

/-- `normalizeInterval`: negative intervals become 1, zero stays 0
("disabled"), positive values are unchanged. -/
def normalizeInterval (v : Int) : Int :=
  if v < 0 then 1 else v

structure SchedState where
  intervalMin : Int
  tickerActive : Bool
  running : Bool
  activeRuns : Nat
  totalRuns : Nat
deriving Repr, DecidableEq

/-- Scheduler state right after startup on a config whose
`IntervalMinutes` is `raw`: interval normalized, ticker armed only when
the interval is positive, no run in progress. -/
def initSched (raw : Int) : SchedState :=
  let i := normalizeInterval raw
  { intervalMin := i, tickerActive := decide (0 < i), running := false,
    activeRuns := 0, totalRuns := 0 }

/-- `triggerRun`: the compare-and-set on `running`.  If a run is already
in progress the request is dropped (state unchanged); otherwise the flag
is set and one run goroutine starts. -/
def applyTrigger (s : SchedState) : SchedState :=
  if s.running then s
  else { s with running := true, activeRuns := s.activeRuns + 1,
                totalRuns := s.totalRuns + 1 }

/-- A run goroutine finishes: `defer running.Store(false)`. -/
def completeRun (s : SchedState) : SchedState :=
  { s with running := false, activeRuns := s.activeRuns - 1 }

/-- `reloadTickerIfNeeded` on a reloaded config whose raw interval is
`raw`: re-arm, disarm or re-period the ticker; never touches `running`. -/
def applyReload (s : SchedState) (raw : Int) : SchedState :=
  let newI := normalizeInterval raw
  if s.intervalMin = 0 ∧ 0 < newI then
    { s with intervalMin := newI, tickerActive := true }
  else if 0 < s.intervalMin ∧ newI = 0 then
    { s with intervalMin := 0, tickerActive := false }
  else if 0 < s.intervalMin ∧ 0 < newI ∧ newI ≠ s.intervalMin then
    { s with intervalMin := newI }
  else s

/-- One atomic observable event of the scheduler loop. -/
inductive SLabel where
  | tick
  | runNow
  | complete
  | reload (raw : Int)
  | reloadFail
deriving Repr, DecidableEq

/-- Effect of one event.  A tick can only fire while a ticker channel is
armed (`tickCh` is `nil` otherwise, so the case never selects), and a
completion can only happen while a run goroutine exists. -/
def schedStep (s : SchedState) : SLabel → SchedState
  | .tick => if s.tickerActive then applyTrigger s else s
  | .runNow => applyTrigger s
  | .complete => if s.running then completeRun s else s
  | .reload raw => applyReload s raw
  | .reloadFail => s

/-- Run the loop over a whole trace of events. -/
def execSched (s : SchedState) : List SLabel → SchedState
  | [] => s
  | l :: ls => execSched (schedStep s l) ls

/-- The event is a config-changed notification (successful or failed
reload). -/
def isReload : SLabel → Bool
  | SLabel.reload _ => true
  | SLabel.reloadFail => true
  | _ => false

/-- A trace contains no config-changed event. -/
def noReload (ls : List SLabel) : Prop :=
  ∀ l ∈ ls, isReload l = false

instance (ls : List SLabel) : Decidable (noReload ls) := by
  unfold noReload
  exact List.decidableBAll _ ls

/-! ## Download runner admission gate (`backup.RunAllEnabled`)

One pool per run: one task per enabled site.  The buffered channel
`sem := make(chan struct{}, MaxParallel)` is the admission gate: a task is
`pending` until its send on `sem` succeeds (`holding`, now allowed to issue
its request and write its file) or until the context cancels it
(`done` without work); releasing the slot ends the task (`done`),
unconditionally on success or failure of the download. -/

/-- `NewRunner`: non-positive requested parallelism falls back to 5. -/
def newRunnerMaxParallel (v : Int) : Int :=
  if v ≤ 0 then 5 else v

/-- The sites a run works on: `Enabled == true` only. -/
def enabledSites (cfg : Config) : List Site :=
  cfg.Sites.filter (·.Enabled)

inductive Phase where
  | pending
  | holding
  | done
deriving Repr, DecidableEq

/-- Number of tasks currently holding a semaphore slot. -/
def countHolding : List Phase → Nat
  | [] => 0
  | p :: ps => (if p = Phase.holding then 1 else 0) + countHolding ps

/-- Atomic events of one run's task pool: task `i` acquires its slot,
aborts on an already-cancelled context, or releases its slot when done
(`ok` records whether its download succeeded; the release happens either
way). -/
inductive RLabel where
  | acquire (i : Nat)
  | abortCtx (i : Nat)
  | release (i : Nat) (ok : Bool)
deriving Repr, DecidableEq

/-- Effect of one pool event under gate width `mp`.  A send on a buffered
channel can only complete while fewer than `mp` slots are taken. -/
def poolStep (mp : Nat) (ps : List Phase) : RLabel → List Phase
  | .acquire i =>
    if ps[i]? = some Phase.pending ∧ countHolding ps < mp then
      ps.set i Phase.holding
    else ps
  | .abortCtx i =>
    if ps[i]? = some Phase.pending then ps.set i Phase.done else ps
  | .release i _ =>
    if ps[i]? = some Phase.holding then ps.set i Phase.done else ps

/-- Run a pool trace. -/
def execPool (mp : Nat) (ps : List Phase) : List RLabel → List Phase
  | [] => ps
  | l :: ls => execPool mp (poolStep mp ps l) ls

/-- Pool at the start of a run over `n` enabled sites. -/
def initPool (n : Nat) : List Phase :=
  List.replicate n Phase.pending

/-! ## Retention engine (`retention.CleanupSite`) -/

/-- One `os.ReadDir` entry: name, directory bit, whether `e.Info()`
succeeds, and the file's modification time as an integer clock value. -/
structure DirEntry where
  name : String
  isDir : Bool
  statOk : Bool
  mod : Int
deriving Repr, DecidableEq

/-- The `fileInfo` record built by the cleanup loop. -/
structure FileInfo where
  name : String
  path : String
  mod : Int
deriving Repr, DecidableEq

/-- Ambient filesystem outcomes consumed by one `CleanupSite` call:
the directory listing (`none` = `os.ReadDir` error) and the set of paths
on which `os.Remove` fails. -/
structure CleanupEnv where
  listing : Option (List DirEntry)
  removeFails : List String
deriving Repr, DecidableEq

/-- The strict name convention: `backup_<siteName>_`. -/
def backupPfx (siteName : String) : String :=
  "backup_" ++ siteName ++ "_"

/-- A name matches the backup convention for `siteName`. -/
def matchesBackup (siteName nm : String) : Bool :=
  hasPfx nm (backupPfx siteName) && hasSfx nm ".zip"

/-- The filtering loop of `CleanupSite`: skip directories, skip names
outside the convention, skip entries whose stat fails (logged, loop
continues). -/
def collectFiles (siteDir siteName : String) (entries : List DirEntry) :
    List FileInfo :=
  entries.filterMap fun e =>
    if e.isDir then none
    else if ¬ matchesBackup siteName e.name then none
    else if ¬ e.statOk then none
    else some { name := e.name, path := joinPath siteDir e.name, mod := e.mod }

/-- Insert keeping ascending modification time. -/
def insertByMod (x : FileInfo) : List FileInfo → List FileInfo
  | [] => [x]
  | y :: ys => if x.mod ≤ y.mod then x :: y :: ys else y :: insertByMod x ys

/-- Contract-level model of `sort.Slice(files, mod.Before)`: a
permutation of the input that is ascending in `mod`.  (Go's `sort.Slice`
leaves the relative order of `mod`-ties implementation-defined; the model
resolves them to listing order.) -/
def sortByMod : List FileInfo → List FileInfo
  | [] => []
  | x :: xs => insertByMod x (sortByMod xs)

/-- Outcome of one `CleanupSite` call: whether it returned an error, the
selection handed to the deletion loop (oldest first), and the paths whose
removal succeeded. -/
structure CleanupResult where
  err : Bool
  toDelete : List FileInfo
  deleted : List String
deriving Repr, DecidableEq

/-- `retention.CleanupSite(siteDir, siteName, keep)`. -/
def CleanupSite (env : CleanupEnv) (siteDir siteName : String) (keep : Int) :
    CleanupResult :=
  if keep ≤ 0 then ⟨false, [], []⟩
  else
    match env.listing with
    | none => ⟨true, [], []⟩
    | some entries =>
      let files := collectFiles siteDir siteName entries
      if (files.length : Int) ≤ keep then ⟨false, [], []⟩
      else
        let toDel := (sortByMod files).take (files.length - keep.toNat)
        ⟨false, toDel,
          (toDel.map (·.path)).filter fun p => decide (p ∉ env.removeFails)⟩

/-! ## Per-site download (`backup.RunOneSite`) -/

/-- Filesystem as the run sees it: the set of directories that exist and
an association list from file path to content (most recent write first). -/
structure FS where
  dirs : List String
  files : List (String × String)
deriving Repr, DecidableEq

def fsLookup (fs : FS) (p : String) : Option String :=
  fs.files.lookup p

def fsWrite (fs : FS) (p v : String) : FS :=
  { fs with files := (p, v) :: fs.files }

def fsDel (fs : FS) (p : String) : FS :=
  { fs with files := fs.files.filter fun q => decide (q.1 ≠ p) }

def fsDelMany (fs : FS) (ps : List String) : FS :=
  { fs with files := fs.files.filter fun q => decide (q.1 ∉ ps) }

def fsMkdir (fs : FS) (d : String) : FS :=
  { fs with dirs := d :: fs.dirs }

structure HttpResp where
  status : Int
  body : String
deriving Repr, DecidableEq

/-- Ambient outcomes of the fallible steps of one `RunOneSite` call, in
source order: `os.MkdirAll`, the HTTP round trip (`none` covers both a
request-construction error and a transport error of `Do`), `os.Create`,
`io.Copy`, `f.Sync`, `f.Close`, `os.Rename`, then the retention
environment. -/
structure RunEnv where
  mkdirOk : Bool
  httpResult : Option HttpResp
  createOk : Bool
  copyOk : Bool
  syncOk : Bool
  closeOk : Bool
  renameOk : Bool
  cleanup : CleanupEnv
deriving Repr, DecidableEq

inductive RunErr where
  | emptyName
  | emptyUrl
  | mkdirErr
  | httpErr
  | badStatus (code : Int)
  | createErr
  | copyErr
  | syncErr
  | closeErr
  | renameErr
deriving Repr, DecidableEq

/-- Result of one `RunOneSite` call: the returned error (`none` = nil),
the filesystem afterwards, and a ghost bit recording whether control
reached the HTTP round trip. -/
structure RunOut where
  res : Option RunErr
  fs : FS
  reachedRequest : Bool
deriving Repr, DecidableEq

/-- Destination file name for site `name` at wall-clock stamp `ts`
(`DD-MM-YYYY_HH-mm-ss`). -/
def backupFileName (name ts : String) : String :=
  "backup_" ++ name ++ "_" ++ ts ++ ".zip"

/-- `siteDir := filepath.Join(filepath.Clean(cfg.BackupFolder), name)`
(`Clean` is the identity on the clean folder paths in play). -/
def siteDirOf (cfg : Config) (site : Site) : String :=
  joinPath cfg.BackupFolder (trimSpace site.Name)

/-- The final archive path `outPath`. -/
def outPathOf (cfg : Config) (site : Site) (ts : String) : String :=
  joinPath (siteDirOf cfg site) (backupFileName (trimSpace site.Name) ts)

/-- The in-flight temporary path `tmpPath := outPath + ".tmp"`. -/
def tmpPathOf (cfg : Config) (site : Site) (ts : String) : String :=
  outPathOf cfg site ts ++ ".tmp"

/-- `backup.RunOneSite(ctx, cfg, site)` with the ambient world `env`,
initial filesystem `fs0` and formatted timestamp `ts`.  The branches are
the function's early returns in source order: empty name, empty url,
`MkdirAll` failure, request/transport failure, non-2xx status, `Create`
failure, then `Copy`/`Sync`/`Close`/`Rename` failure (each of which
removes the temp file), and finally the success path: the temp file
written with the full body, renamed onto the final path, then the
best-effort retention call whose error is discarded. -/
def RunOneSite (env : RunEnv) (fs0 : FS) (cfg : Config) (site : Site)
    (ts : String) : RunOut :=
  if trimSpace site.Name = "" then ⟨some RunErr.emptyName, fs0, false⟩
  else if trimSpace site.Url = "" then ⟨some RunErr.emptyUrl, fs0, false⟩
  else if ¬ env.mkdirOk then ⟨some RunErr.mkdirErr, fs0, false⟩
  else
    match env.httpResult with
    | none => ⟨some RunErr.httpErr, fsMkdir fs0 (siteDirOf cfg site), true⟩
    | some resp =>
      if resp.status < 200 ∨ 300 ≤ resp.status then
        ⟨some (RunErr.badStatus resp.status),
          fsMkdir fs0 (siteDirOf cfg site), true⟩
      else if ¬ env.createOk then
        ⟨some RunErr.createErr, fsMkdir fs0 (siteDirOf cfg site), true⟩
      else if ¬ env.copyOk then
        ⟨some RunErr.copyErr,
          fsDel (fsWrite (fsMkdir fs0 (siteDirOf cfg site))
            (tmpPathOf cfg site ts) "") (tmpPathOf cfg site ts), true⟩
      else if ¬ env.syncOk then
        ⟨some RunErr.syncErr,
          fsDel (fsWrite (fsWrite (fsMkdir fs0 (siteDirOf cfg site))
            (tmpPathOf cfg site ts) "") (tmpPathOf cfg site ts) resp.body)
            (tmpPathOf cfg site ts), true⟩
      else if ¬ env.closeOk then
        ⟨some RunErr.closeErr,
          fsDel (fsWrite (fsWrite (fsMkdir fs0 (siteDirOf cfg site))
            (tmpPathOf cfg site ts) "") (tmpPathOf cfg site ts) resp.body)
            (tmpPathOf cfg site ts), true⟩
      else if ¬ env.renameOk then
        ⟨some RunErr.renameErr,
          fsDel (fsWrite (fsWrite (fsMkdir fs0 (siteDirOf cfg site))
            (tmpPathOf cfg site ts) "") (tmpPathOf cfg site ts) resp.body)
            (tmpPathOf cfg site ts), true⟩
      else
        ⟨none,
          fsDelMany
            (fsWrite
              (fsDel (fsWrite (fsWrite (fsMkdir fs0 (siteDirOf cfg site))
                (tmpPathOf cfg site ts) "") (tmpPathOf cfg site ts)
                  resp.body) (tmpPathOf cfg site ts))
              (outPathOf cfg site ts) resp.body)
            (CleanupSite env.cleanup (siteDirOf cfg site)
              (trimSpace site.Name) cfg.Retention).deleted, true⟩

/-! ## Basic lemmas about the string primitives -/

theorem data_append (a b : String) : (a ++ b).data = a.data ++ b.data := rfl

theorem ne_empty_iff_data (s : String) : s ≠ "" ↔ s.data ≠ [] := by
  constructor
  · intro h hdata
    exact h (String.ext hdata)
  · intro h hs
    subst hs
    exact h rfl

theorem joinPath_ne_empty (a b : String) : joinPath a b ≠ "" := by
  rw [ne_empty_iff_data]
  simp [joinPath, data_append]

theorem joinPath_right_inj (a b c : String) (h : joinPath a b = joinPath a c) :
    b = c := by
  unfold joinPath at h
  have hd := congrArg String.data h
  simp only [data_append] at hd
  exact String.ext (List.append_cancel_left hd)

theorem dropWhile_head_not (p : Char → Bool) (l : List Char) (a : Char)
    (r : List Char) (h : l.dropWhile p = a :: r) : p a = false := by
  induction l with
  | nil => simp [List.dropWhile] at h
  | cons x xs ih =>
    rw [List.dropWhile_cons] at h
    by_cases hx : p x
    · simp [hx] at h
      exact ih h
    · simp [hx] at h
      rw [← h.1]
      exact Bool.of_not_eq_true hx

theorem dropWhile_dropWhile (p : Char → Bool) (l : List Char) :
    (l.dropWhile p).dropWhile p = l.dropWhile p := by
  cases h : l.dropWhile p with
  | nil => simp
  | cons a r =>
    have ha := dropWhile_head_not p l a r h
    simp [List.dropWhile_cons, ha]

theorem dropWhileEnd_nil (p : Char → Bool) : dropWhileEnd p [] = [] := rfl

theorem dropWhileEnd_cons (p : Char → Bool) (a : Char) (l : List Char) :
    dropWhileEnd p (a :: l) =
      if (dropWhileEnd p l).isEmpty && p a then []
      else a :: dropWhileEnd p l := rfl

theorem dropWhileEnd_cons_cases (p : Char → Bool) (a : Char) (l : List Char) :
    dropWhileEnd p (a :: l) = [] ∨
      ∃ r, dropWhileEnd p (a :: l) = a :: r := by
  rw [dropWhileEnd_cons]
  by_cases h : (dropWhileEnd p l).isEmpty && p a
  · left; simp [h]
  · right; exact ⟨dropWhileEnd p l, by simp [h]⟩

theorem dropWhileEnd_idem (p : Char → Bool) (l : List Char) :
    dropWhileEnd p (dropWhileEnd p l) = dropWhileEnd p l := by
  induction l with
  | nil => rfl
  | cons a l ih =>
    rw [dropWhileEnd_cons]
    by_cases h : (dropWhileEnd p l).isEmpty && p a
    · simp [h, dropWhileEnd_nil]
    · rw [if_neg h, dropWhileEnd_cons, ih, if_neg h]

theorem trimSpace_idem (s : String) : trimSpace (trimSpace s) = trimSpace s := by
  unfold trimSpace
  have hdrop : (dropWhileEnd isGoSpace (s.data.dropWhile isGoSpace)).dropWhile
      isGoSpace = dropWhileEnd isGoSpace (s.data.dropWhile isGoSpace) := by
    cases hm : s.data.dropWhile isGoSpace with
    | nil => simp [dropWhileEnd]
    | cons a m =>
      rcases dropWhileEnd_cons_cases isGoSpace a m with h0 | ⟨r, hr⟩
      · simp [h0]
      · rw [hr, List.dropWhile_cons,
          dropWhile_head_not isGoSpace s.data a m hm]
        simp
  show String.mk (dropWhileEnd isGoSpace
      ((dropWhileEnd isGoSpace (s.data.dropWhile isGoSpace)).dropWhile
        isGoSpace)) = _
  rw [hdrop, dropWhileEnd_idem]

theorem trimSpace_empty : trimSpace "" = "" := rfl

/-! ## C4 helper lemmas: the site-normalization loop -/

/-- The predicate of the duplicate-name invariant: two kept sites never
share a non-empty case-insensitive name. -/
def distinctName (a b : Site) : Prop :=
  a.Name ≠ "" → b.Name ≠ "" → toLowerGo a.Name ≠ toLowerGo b.Name

theorem normSitesAux_mem_shape {seen : List String} {l : List Site} {t : Site}
    (h : t ∈ normSitesAux seen l) : ∃ s ∈ l, t = normSite s := by
  induction l generalizing seen with
  | nil => simp [normSitesAux] at h
  | cons s rest ih =>
    rw [normSitesAux] at h
    by_cases h1 : trimSpace s.Name = "" ∧ trimSpace s.Url = ""
    · rw [if_pos h1] at h
      obtain ⟨u, hu, ht⟩ := ih h
      exact ⟨u, List.mem_cons_of_mem _ hu, ht⟩
    · rw [if_neg h1] at h
      by_cases h2 : trimSpace s.Name ≠ "" ∧
          toLowerGo (trimSpace s.Name) ∈ seen
      · rw [if_pos h2] at h
        obtain ⟨u, hu, ht⟩ := ih h
        exact ⟨u, List.mem_cons_of_mem _ hu, ht⟩
      · rw [if_neg h2] at h
        rcases List.mem_cons.mp h with hh | hh
        · exact ⟨s, List.mem_cons_self _ _, hh⟩
        · obtain ⟨u, hu, ht⟩ := ih hh
          exact ⟨u, List.mem_cons_of_mem _ hu, ht⟩

theorem normSitesAux_mem_not_seen {seen : List String} {l : List Site}
    {t : Site} (h : t ∈ normSitesAux seen l) (hn : t.Name ≠ "") :
    toLowerGo t.Name ∉ seen := by
  induction l generalizing seen with
  | nil => simp [normSitesAux] at h
  | cons s rest ih =>
    rw [normSitesAux] at h
    by_cases h1 : trimSpace s.Name = "" ∧ trimSpace s.Url = ""
    · rw [if_pos h1] at h
      exact ih h
    · rw [if_neg h1] at h
      by_cases h2 : trimSpace s.Name ≠ "" ∧
          toLowerGo (trimSpace s.Name) ∈ seen
      · rw [if_pos h2] at h
        exact ih h
      · rw [if_neg h2] at h
        rcases List.mem_cons.mp h with hh | hh
        · subst hh
          intro hmem
          simp only [normSite] at hn hmem
          exact h2 ⟨hn, hmem⟩
        · by_cases hname : trimSpace s.Name = ""
          · have hrec : t ∈ normSitesAux seen rest := by
              simpa [hname] using hh
            exact ih hrec
          · have hrec : t ∈ normSitesAux
                (toLowerGo (trimSpace s.Name) :: seen) rest := by
              simpa [hname] using hh
            intro hmem
            exact ih hrec (List.mem_cons_of_mem _ hmem)

theorem normSitesAux_mem_not_both_empty {seen : List String} {l : List Site}
    {t : Site} (h : t ∈ normSitesAux seen l) : ¬(t.Name = "" ∧ t.Url = "") := by
  induction l generalizing seen with
  | nil => simp [normSitesAux] at h
  | cons s rest ih =>
    rw [normSitesAux] at h
    by_cases h1 : trimSpace s.Name = "" ∧ trimSpace s.Url = ""
    · rw [if_pos h1] at h
      exact ih h
    · rw [if_neg h1] at h
      by_cases h2 : trimSpace s.Name ≠ "" ∧
          toLowerGo (trimSpace s.Name) ∈ seen
      · rw [if_pos h2] at h
        exact ih h
      · rw [if_neg h2] at h
        rcases List.mem_cons.mp h with hh | hh
        · subst hh
          simpa [normSite] using h1
        · exact ih hh

theorem normSitesAux_pairwise (seen : List String) (l : List Site) :
    (normSitesAux seen l).Pairwise distinctName := by
  induction l generalizing seen with
  | nil => exact List.Pairwise.nil
  | cons s rest ih =>
    rw [normSitesAux]
    by_cases h1 : trimSpace s.Name = "" ∧ trimSpace s.Url = ""
    · rw [if_pos h1]; exact ih seen
    · rw [if_neg h1]
      by_cases h2 : trimSpace s.Name ≠ "" ∧
          toLowerGo (trimSpace s.Name) ∈ seen
      · rw [if_pos h2]; exact ih seen
      · rw [if_neg h2]
        refine List.Pairwise.cons ?_ (ih _)
        intro b hb hn hbn
        by_cases hname : trimSpace s.Name = ""
        · exact absurd hname (by simpa [normSite] using hn)
        · have hb' : b ∈ normSitesAux
              (toLowerGo (trimSpace s.Name) :: seen) rest := by
            simpa [hname] using hb
          have := normSitesAux_mem_not_seen hb' hbn
          simp only [normSite]
          intro heq
          exact this (heq ▸ List.mem_cons_self _ _)

/-- Relation between Go's `seen` set and the processed prefix of the
site list: `seen` holds exactly the lowercased non-empty trimmed names of
the entries already walked. -/
def seenInv (seen : List String) (pre : List Site) : Prop :=
  ∀ x, x ∈ seen ↔
    ∃ t ∈ pre, trimSpace t.Name ≠ "" ∧ x = toLowerGo (trimSpace t.Name)

theorem seenInv_nil : seenInv [] [] := by
  intro x
  simp

theorem seenInv_push_empty {seen : List String} {pre : List Site} {s : Site}
    (h : seenInv seen pre) (hs : trimSpace s.Name = "") :
    seenInv seen (pre ++ [s]) := by
  intro x
  rw [h x]
  constructor
  · rintro ⟨t, ht, hn, hx⟩
    exact ⟨t, List.mem_append_left _ ht, hn, hx⟩
  · rintro ⟨t, ht, hn, hx⟩
    rcases List.mem_append.mp ht with ht | ht
    · exact ⟨t, ht, hn, hx⟩
    · rw [List.mem_singleton] at ht
      subst ht
      exact absurd hs hn

theorem seenInv_push_dup {seen : List String} {pre : List Site} {s : Site}
    (h : seenInv seen pre)
    (hs : toLowerGo (trimSpace s.Name) ∈ seen) :
    seenInv seen (pre ++ [s]) := by
  intro x
  constructor
  · intro hx
    obtain ⟨t, ht, hn, hx'⟩ := (h x).mp hx
    exact ⟨t, List.mem_append_left _ ht, hn, hx'⟩
  · rintro ⟨t, ht, hn, hx⟩
    rcases List.mem_append.mp ht with ht | ht
    · exact (h x).mpr ⟨t, ht, hn, hx⟩
    · rw [List.mem_singleton] at ht
      subst ht
      subst hx
      exact hs

theorem seenInv_push_new {seen : List String} {pre : List Site} {s : Site}
    (h : seenInv seen pre) (hs : trimSpace s.Name ≠ "") :
    seenInv (toLowerGo (trimSpace s.Name) :: seen) (pre ++ [s]) := by
  intro x
  rw [List.mem_cons, h x]
  constructor
  · rintro (hx | ⟨t, ht, hn, hx⟩)
    · exact ⟨s, List.mem_append_right _ (List.mem_singleton_self _), hs, hx⟩
    · exact ⟨t, List.mem_append_left _ ht, hn, hx⟩
  · rintro ⟨t, ht, hn, hx⟩
    rcases List.mem_append.mp ht with ht | ht
    · exact Or.inr ⟨t, ht, hn, hx⟩
    · rw [List.mem_singleton] at ht
      subst ht
      exact Or.inl hx

theorem normSitesAux_eq_sitesSpec (l : List Site) :
    ∀ seen pre, seenInv seen pre → normSitesAux seen l = sitesSpec pre l := by
  induction l with
  | nil => intro seen pre _; rfl
  | cons s rest ih =>
    intro seen pre hinv
    rw [normSitesAux, sitesSpec]
    by_cases h1 : trimSpace s.Name = "" ∧ trimSpace s.Url = ""
    · rw [if_pos h1, if_pos (show bothEmpty s from h1)]
      exact ih seen (pre ++ [s]) (seenInv_push_empty hinv h1.1)
    · rw [if_neg h1, if_neg (show ¬ bothEmpty s from h1)]
      by_cases h2 : trimSpace s.Name ≠ "" ∧
          toLowerGo (trimSpace s.Name) ∈ seen
      · have hdup : dupOfEarlier pre s := by
          obtain ⟨t, ht, hn, hx⟩ := (hinv _).mp h2.2
          exact ⟨h2.1, t, ht, hn, hx.symm⟩
        rw [if_pos h2, if_pos hdup]
        exact ih seen (pre ++ [s]) (seenInv_push_dup hinv h2.2)
      · have hdup : ¬ dupOfEarlier pre s := by
          rintro ⟨hn, t, ht, htn, heq⟩
          exact h2 ⟨hn, (hinv _).mpr ⟨t, ht, htn, heq.symm⟩⟩
        rw [if_neg h2, if_neg hdup]
        by_cases hname : trimSpace s.Name = ""
        · rw [if_pos hname]
          exact congrArg _ (ih seen (pre ++ [s]) (seenInv_push_empty hinv hname))
        · rw [if_neg hname]
          exact congrArg _
            (ih _ (pre ++ [s]) (seenInv_push_new hinv hname))

theorem defaultBackupFolder_ne_empty (pd : String) :
    defaultBackupFolder pd ≠ "" := by
  unfold defaultBackupFolder
  by_cases h : pd = ""
  · rw [if_pos h]; decide
  · rw [if_neg h]; exact joinPath_ne_empty _ _

/-- C4: after `ValidateAndNormalize`, the interval is non-negative, the
retention is at least 1, the backup folder is non-empty, no two kept
sites share a case-insensitively equal non-empty name, every kept site
has a non-empty (trimmed) name or url, and the kept sites are exactly
the spec's "trim, drop empty-empty, keep first occurrence per
case-insensitive name, in original order" selection. -/
theorem C4_validate_and_normalize (pd : String) (c : Config) :
    0 ≤ (ValidateAndNormalize pd c).IntervalMinutes ∧
    1 ≤ (ValidateAndNormalize pd c).Retention ∧
    (ValidateAndNormalize pd c).BackupFolder ≠ "" ∧
    (ValidateAndNormalize pd c).Sites.Pairwise distinctName ∧
    (∀ t ∈ (ValidateAndNormalize pd c).Sites, ¬(t.Name = "" ∧ t.Url = "")) ∧
    (ValidateAndNormalize pd c).Sites = sitesSpec [] c.Sites := by
  refine ⟨?_, ?_, ?_, ?_, ?_, ?_⟩
  · show 0 ≤ (if c.IntervalMinutes < 0 then 1 else c.IntervalMinutes)
    split <;> omega
  · show 1 ≤ (if c.Retention ≤ 0 then 30 else c.Retention)
    split <;> omega
  · show (if trimSpace c.BackupFolder = "" then defaultBackupFolder pd
      else trimSpace c.BackupFolder) ≠ ""
    split
    · exact defaultBackupFolder_ne_empty pd
    · next h => exact h
  · exact normSitesAux_pairwise [] c.Sites
  · intro t ht
    exact normSitesAux_mem_not_both_empty ht
  · exact normSitesAux_eq_sitesSpec c.Sites [] [] seenInv_nil

/-! ## C9: idempotence of `ValidateAndNormalize` -/

theorem normSitesAux_fixed (m : List Site) :
    ∀ seen,
      (∀ t ∈ m, trimSpace t.Name = t.Name ∧ trimSpace t.Url = t.Url ∧
        ¬(t.Name = "" ∧ t.Url = "")) →
      m.Pairwise distinctName →
      (∀ t ∈ m, t.Name ≠ "" → toLowerGo t.Name ∉ seen) →
      normSitesAux seen m = m := by
  induction m with
  | nil => intro seen _ _ _; rfl
  | cons t rest ih =>
    intro seen hfix hpw hseen
    obtain ⟨hN, hU, hne⟩ := hfix t (List.mem_cons_self _ _)
    rw [normSitesAux]
    simp only [hN, hU]
    rw [if_neg hne]
    have hnotdup : ¬(t.Name ≠ "" ∧ toLowerGo t.Name ∈ seen) := by
      rintro ⟨hn, hmem⟩
      exact hseen t (List.mem_cons_self _ _) hn hmem
    rw [if_neg hnotdup]
    have hhead : ({ Enabled := t.Enabled, Name := t.Name, Url := t.Url } :
        Site) = t := by
      cases t; rfl
    rw [hhead]
    refine congrArg _ (ih _ (fun u hu => hfix u (List.mem_cons_of_mem _ hu))
      (List.pairwise_cons.mp hpw).2 ?_)
    intro u hu hun
    by_cases hname : t.Name = ""
    · rw [if_pos hname]
      exact hseen u (List.mem_cons_of_mem _ hu) hun
    · rw [if_neg hname]
      intro hmem
      rcases List.mem_cons.mp hmem with heq | hmem'
      · have hd := (List.pairwise_cons.mp hpw).1 u hu
        exact hd hname hun heq.symm
      · exact hseen u (List.mem_cons_of_mem _ hu) hun hmem'

/-- C9: `ValidateAndNormalize` is idempotent (as the program relies on:
`LoadOrCreate` normalizes and `Save` normalizes again), provided the
ambient default backup folder name carries no surrounding whitespace —
true of both real defaults, `Backups` and
`%ProgramData%\httpBackupGo\Backups`. -/
theorem C9_validate_and_normalize_idempotent (pd : String) (c : Config)
    (hpd : trimSpace (defaultBackupFolder pd) = defaultBackupFolder pd) :
    ValidateAndNormalize pd (ValidateAndNormalize pd c) =
      ValidateAndNormalize pd c := by
  have hsites : ∀ t ∈ normSitesAux [] c.Sites,
      trimSpace t.Name = t.Name ∧ trimSpace t.Url = t.Url ∧
        ¬(t.Name = "" ∧ t.Url = "") := by
    intro t ht
    obtain ⟨s, _, hts⟩ := normSitesAux_mem_shape ht
    subst hts
    exact ⟨trimSpace_idem _, trimSpace_idem _,
      normSitesAux_mem_not_both_empty ht⟩
  simp only [ValidateAndNormalize, Config.mk.injEq]
  refine ⟨?_, ?_, ?_, ?_, ?_⟩
  · by_cases h : trimSpace c.WebListenAddr = ""
    · rw [if_pos h]
      have : trimSpace "127.0.0.1:8123" = "127.0.0.1:8123" := by decide
      rw [this]
      have hne : ("127.0.0.1:8123" : String) ≠ "" := by decide
      rw [if_neg hne]
    · rw [if_neg h, trimSpace_idem, if_neg h]
  · by_cases h : c.IntervalMinutes < 0
    · rw [if_pos h]
      norm_num
    · rw [if_neg h, if_neg h]
  · by_cases h : trimSpace c.BackupFolder = ""
    · rw [if_pos h, hpd, if_neg (defaultBackupFolder_ne_empty pd)]
    · rw [if_neg h, trimSpace_idem, if_neg h]
  · by_cases h : c.Retention ≤ 0
    · rw [if_pos h]
      norm_num
    · rw [if_neg h, if_neg h]
  · exact normSitesAux_fixed _ [] hsites (normSitesAux_pairwise [] c.Sites)
      (by intro t _ _ hmem; exact absurd hmem (List.not_mem_nil _))

/-! ## C2 and C5: scheduler lemmas -/

theorem execSched_append (s : SchedState) (l₁ l₂ : List SLabel) :
    execSched s (l₁ ++ l₂) = execSched (execSched s l₁) l₂ := by
  induction l₁ generalizing s with
  | nil => rfl
  | cons l ls ih => rw [List.cons_append, execSched, execSched, ih]

theorem applyReload_eq (s : SchedState) (raw : Int) :
    applyReload s raw =
      if s.intervalMin = 0 ∧ 0 < normalizeInterval raw then
        { s with intervalMin := normalizeInterval raw, tickerActive := true }
      else if 0 < s.intervalMin ∧ normalizeInterval raw = 0 then
        { s with intervalMin := 0, tickerActive := false }
      else if 0 < s.intervalMin ∧ 0 < normalizeInterval raw ∧
          normalizeInterval raw ≠ s.intervalMin then
        { s with intervalMin := normalizeInterval raw }
      else s := rfl

theorem applyTrigger_frame (s : SchedState) :
    (applyTrigger s).tickerActive = s.tickerActive ∧
    (applyTrigger s).intervalMin = s.intervalMin := by
  unfold applyTrigger
  split
  · exact ⟨rfl, rfl⟩
  · exact ⟨rfl, rfl⟩

theorem applyReload_frame (s : SchedState) (raw : Int) :
    (applyReload s raw).running = s.running ∧
    (applyReload s raw).activeRuns = s.activeRuns ∧
    (applyReload s raw).totalRuns = s.totalRuns := by
  rw [applyReload_eq]
  split
  · exact ⟨rfl, rfl, rfl⟩
  · split
    · exact ⟨rfl, rfl, rfl⟩
    · split
      · exact ⟨rfl, rfl, rfl⟩
      · exact ⟨rfl, rfl, rfl⟩

/-- The ghost run counter always matches the `running` flag: the flag is
set exactly while one run goroutine is alive. -/
def SchedInv (s : SchedState) : Prop :=
  s.activeRuns = if s.running then 1 else 0

theorem applyTrigger_inv {s : SchedState} (h : SchedInv s) :
    SchedInv (applyTrigger s) := by
  unfold applyTrigger
  by_cases hr : s.running
  · rw [if_pos hr]; exact h
  · rw [if_neg hr]
    unfold SchedInv at h ⊢
    simp only [if_pos rfl] at *
    rw [if_neg hr] at h
    simp [h]

theorem schedStep_inv {s : SchedState} (l : SLabel) (h : SchedInv s) :
    SchedInv (schedStep s l) := by
  cases l with
  | tick =>
    show SchedInv (if s.tickerActive then applyTrigger s else s)
    by_cases ht : s.tickerActive
    · rw [if_pos ht]; exact applyTrigger_inv h
    · rw [if_neg ht]; exact h
  | runNow => exact applyTrigger_inv h
  | complete =>
    show SchedInv (if s.running then completeRun s else s)
    by_cases hr : s.running
    · rw [if_pos hr]
      unfold SchedInv at h
      rw [if_pos hr] at h
      unfold SchedInv completeRun
      simp [h]
    · rw [if_neg hr]; exact h
  | reload raw =>
    obtain ⟨h1, h2, _⟩ := applyReload_frame s raw
    unfold SchedInv at h ⊢
    rw [(show schedStep s (SLabel.reload raw) = applyReload s raw from rfl),
      h1, h2]
    exact h
  | reloadFail => exact h

theorem execSched_inv {s : SchedState} (ls : List SLabel) (h : SchedInv s) :
    SchedInv (execSched s ls) := by
  induction ls generalizing s with
  | nil => exact h
  | cons l ls ih => exact ih (schedStep_inv l h)

theorem initSched_inv (raw : Int) : SchedInv (initSched raw) := by
  unfold SchedInv initSched
  simp

/-- C2: in every state the scheduler loop can reach, at most one run
goroutine is alive, and while the `running` flag is set a tick or a
manual run-now trigger leaves the state completely unchanged — zero
additional runs (and hence zero additional download tasks) start. -/
theorem C2_no_overlapping_runs (raw : Int) (ls : List SLabel) :
    (execSched (initSched raw) ls).activeRuns ≤ 1 ∧
    ((execSched (initSched raw) ls).running = true →
      schedStep (execSched (initSched raw) ls) SLabel.tick =
        execSched (initSched raw) ls ∧
      schedStep (execSched (initSched raw) ls) SLabel.runNow =
        execSched (initSched raw) ls) := by
  have hinv := execSched_inv ls (initSched_inv raw)
  unfold SchedInv at hinv
  constructor
  · rw [hinv]
    split <;> omega
  · intro hr
    have htrig : applyTrigger (execSched (initSched raw) ls) =
        execSched (initSched raw) ls := by
      unfold applyTrigger
      rw [if_pos hr]
    constructor
    · show (if (execSched (initSched raw) ls).tickerActive then
          applyTrigger (execSched (initSched raw) ls)
        else execSched (initSched raw) ls) = _
      rw [htrig, ite_self]
    · exact htrig

/-- Concrete instance: after a manual trigger the scheduler is running,
and a second tick is dropped without effect. -/
theorem C2_no_overlapping_runs_witness :
    schedStep (execSched (initSched 5) [SLabel.runNow]) SLabel.tick =
      execSched (initSched 5) [SLabel.runNow] :=
  ((C2_no_overlapping_runs 5 [SLabel.runNow]).2 (by decide)).1

theorem schedStep_preserves_ticker {s : SchedState} {l : SLabel}
    (h : isReload l = false) :
    (schedStep s l).tickerActive = s.tickerActive := by
  cases l with
  | tick =>
    show (if s.tickerActive then applyTrigger s else s).tickerActive = _
    by_cases ht : s.tickerActive
    · rw [if_pos ht]; exact (applyTrigger_frame s).1
    · rw [if_neg ht]
  | runNow => exact (applyTrigger_frame s).1
  | complete =>
    show (if s.running then completeRun s else s).tickerActive = _
    split <;> rfl
  | reload raw => simp [isReload] at h
  | reloadFail => simp [isReload] at h

theorem execSched_ticker_off {ls : List SLabel} (h : noReload ls) :
    (execSched (initSched 0) ls).tickerActive = false := by
  suffices hgen : ∀ (ls : List SLabel) (s : SchedState), noReload ls →
      s.tickerActive = false → (execSched s ls).tickerActive = false by
    exact hgen ls (initSched 0) h (by decide)
  intro ls
  induction ls with
  | nil => intro s _ hs; exact hs
  | cons l ls ih =>
    intro s hnr hs
    rw [execSched]
    exact ih _ (fun x hx => hnr x (List.mem_cons_of_mem _ hx))
      ((schedStep_preserves_ticker (hnr l (List.mem_cons_self _ _))).trans hs)

/-- C5: the scheduler's interval normalization maps negatives to 1 and
keeps every non-negative value (in particular 0); both the startup state
and every live reload install exactly `normalizeInterval` of the raw
config value; with interval 0 the ticker is disarmed, so a tick occurring
at any point of a reload-free trace has no effect whatsoever, while a
manual run-now trigger from startup does start a run. -/
theorem C5_interval_zero_disables_ticks :
    (∀ v : Int, v < 0 → normalizeInterval v = 1) ∧
    (∀ v : Int, 0 ≤ v → normalizeInterval v = v) ∧
    (∀ raw : Int, (initSched raw).intervalMin = normalizeInterval raw) ∧
    (∀ (s : SchedState) (raw : Int), 0 ≤ s.intervalMin →
      (applyReload s raw).intervalMin = normalizeInterval raw) ∧
    (∀ ls₁ ls₂ : List SLabel, noReload ls₁ →
      execSched (initSched 0) (ls₁ ++ SLabel.tick :: ls₂) =
        execSched (initSched 0) (ls₁ ++ ls₂)) ∧
    (schedStep (initSched 0) SLabel.runNow).totalRuns = 1 := by
  have hnorm_nonneg : ∀ v : Int, 0 ≤ normalizeInterval v := by
    intro v
    unfold normalizeInterval
    split <;> omega
  refine ⟨?_, ?_, ?_, ?_, ?_, ?_⟩
  · intro v hv
    unfold normalizeInterval
    rw [if_pos hv]
  · intro v hv
    unfold normalizeInterval
    rw [if_neg (by omega)]
  · intro raw; rfl
  · intro s raw hs
    rw [applyReload_eq]
    split
    · rfl
    · split
      · next h1 h2 =>
        show (0 : Int) = normalizeInterval raw
        omega
      · split
        · rfl
        · next h1 h2 h3 =>
          have := hnorm_nonneg raw
          by_cases hz : s.intervalMin = 0
          · rw [hz]
            push_neg at h1
            have := h1 (by omega)
            omega
          · push_neg at h2 h3
            have hpos : 0 < s.intervalMin := by omega
            have hn0 : normalizeInterval raw ≠ 0 := h2 hpos
            have := h3 hpos (by omega)
            omega
  · intro ls₁ ls₂ hnr
    rw [execSched_append, execSched_append, execSched]
    have hoff := execSched_ticker_off hnr
    show execSched (if (execSched (initSched 0) ls₁).tickerActive then _
      else _) ls₂ = _
    rw [hoff]
    simp
  · decide

/-- Concrete instance: negative interval normalizes to 1, a reload of a
raw interval 9 installs 9, and a tick inserted after a manual run on the
disabled scheduler changes nothing. -/
theorem C5_interval_zero_disables_ticks_witness :
    normalizeInterval (-7) = 1 ∧
    (applyReload (initSched 5) 9).intervalMin = normalizeInterval 9 ∧
    execSched (initSched 0) ([SLabel.runNow] ++ SLabel.tick :: []) =
      execSched (initSched 0) ([SLabel.runNow] ++ []) :=
  ⟨C5_interval_zero_disables_ticks.1 (-7) (by decide),
    C5_interval_zero_disables_ticks.2.2.2.1 (initSched 5) 9 (by decide),
    C5_interval_zero_disables_ticks.2.2.2.2.1 [SLabel.runNow] []
      (by decide)⟩

/-- A sample config with two case-insensitively duplicate names, a
totally empty site row and out-of-range numeric fields. -/
def cfgSample : Config where
  WebListenAddr := " "
  IntervalMinutes := -3
  BackupFolder := "  "
  Retention := 0
  Sites := [{ Enabled := true, Name := " A ", Url := "u1" },
            { Enabled := false, Name := "a", Url := "u2" },
            { Enabled := true, Name := "", Url := "" },
            { Enabled := true, Name := "", Url := " u3 " }]

/-- Concrete instance of the normalization postconditions: a config with
two case-insensitively equal names keeps only the first, trimmed. -/
theorem C4_validate_and_normalize_witness :
    (ValidateAndNormalize "" cfgSample).Sites = sitesSpec [] cfgSample.Sites :=
  (C4_validate_and_normalize "" cfgSample).2.2.2.2.2

/-- Concrete instance of idempotence on a config that exercises every
normalization branch. -/
theorem C9_validate_and_normalize_idempotent_witness :
    ValidateAndNormalize "" (ValidateAndNormalize "" cfgSample) =
      ValidateAndNormalize "" cfgSample :=
  C9_validate_and_normalize_idempotent "" cfgSample (by decide)

/-! ## C8: the admission gate bounds in-flight downloads -/

theorem ite_pending_holding :
    (if Phase.pending = Phase.holding then (1 : Nat) else 0) = 0 := rfl

theorem ite_done_holding :
    (if Phase.done = Phase.holding then (1 : Nat) else 0) = 0 := rfl

theorem ite_holding_holding :
    (if Phase.holding = Phase.holding then (1 : Nat) else 0) = 1 := rfl

theorem countHolding_set (ps : List Phase) (i : Nat) (u v : Phase)
    (h : ps[i]? = some u) :
    countHolding (ps.set i v) + (if u = Phase.holding then 1 else 0) =
      countHolding ps + (if v = Phase.holding then 1 else 0) := by
  induction ps generalizing i with
  | nil => simp at h
  | cons a l ih =>
    cases i with
    | zero =>
      simp only [List.getElem?_cons_zero, Option.some.injEq] at h
      rw [List.set_cons_zero]
      rw [countHolding, countHolding, h]
      omega
    | succ j =>
      simp only [List.getElem?_cons_succ] at h
      have := ih j h
      rw [List.set_cons_succ]
      rw [countHolding, countHolding]
      omega

theorem countHolding_poolStep {mp : Nat} {ps : List Phase} (l : RLabel)
    (h : countHolding ps ≤ mp) : countHolding (poolStep mp ps l) ≤ mp := by
  cases l with
  | acquire i =>
    show countHolding (if ps[i]? = some Phase.pending ∧ countHolding ps < mp
      then ps.set i Phase.holding else ps) ≤ mp
    split
    · next hc =>
      have := countHolding_set ps i Phase.pending Phase.holding hc.1
      have hlt := hc.2
      rw [ite_pending_holding, ite_holding_holding] at this
      omega
    · exact h
  | abortCtx i =>
    show countHolding (if ps[i]? = some Phase.pending
      then ps.set i Phase.done else ps) ≤ mp
    split
    · next hc =>
      have := countHolding_set ps i Phase.pending Phase.done hc
      rw [ite_pending_holding, ite_done_holding] at this
      omega
    · exact h
  | release i ok =>
    show countHolding (if ps[i]? = some Phase.holding
      then ps.set i Phase.done else ps) ≤ mp
    split
    · next hc =>
      have := countHolding_set ps i Phase.holding Phase.done hc
      rw [ite_holding_holding, ite_done_holding] at this
      omega
    · exact h

/-- C8: along every interleaving of one run's task pool, the number of
tasks holding a semaphore slot — exactly the tasks between issuing their
network request and finishing their file write — never exceeds
`MaxParallel`; a slot release has the same effect whether the download
succeeded or failed; and `NewRunner` always installs a positive bound. -/
theorem C8_max_parallel_bound (mp n : Nat) (labels : List RLabel) :
    countHolding (execPool mp (initPool n) labels) ≤ mp ∧
    (∀ (ps : List Phase) (i : Nat) (ok : Bool),
      poolStep mp ps (RLabel.release i ok) =
        poolStep mp ps (RLabel.release i true)) ∧
    (∀ v : Int, 0 < newRunnerMaxParallel v) := by
  refine ⟨?_, ?_, ?_⟩
  · have hgen : ∀ (labels : List RLabel) (ps : List Phase),
        countHolding ps ≤ mp →
        countHolding (execPool mp ps labels) ≤ mp := by
      intro labels
      induction labels with
      | nil => intro ps h; exact h
      | cons l ls ih =>
        intro ps h
        exact ih _ (countHolding_poolStep l h)
    refine hgen labels (initPool n) ?_
    have hrep : ∀ m, countHolding (List.replicate m Phase.pending) = 0 := by
      intro m
      induction m with
      | zero => rfl
      | succ k ih =>
        rw [List.replicate_succ, countHolding, ih, ite_pending_holding]
    unfold initPool
    rw [hrep n]
    exact Nat.zero_le mp
  · intro ps i ok; rfl
  · intro v
    unfold newRunnerMaxParallel
    split <;> omega

/-! ## C3: retention cleanup -/

theorem insertByMod_perm (x : FileInfo) (l : List FileInfo) :
    (insertByMod x l).Perm (x :: l) := by
  induction l with
  | nil => exact List.Perm.refl _
  | cons y ys ih =>
    rw [insertByMod]
    split
    · exact List.Perm.refl _
    · exact ((ih.cons y).trans (List.Perm.swap x y ys)).symm.symm

theorem sortByMod_perm (l : List FileInfo) : (sortByMod l).Perm l := by
  induction l with
  | nil => exact List.Perm.refl _
  | cons x xs ih =>
    exact (insertByMod_perm x (sortByMod xs)).trans (ih.cons x)

theorem insertByMod_pairwise {x : FileInfo} {l : List FileInfo}
    (h : l.Pairwise (fun a b => a.mod ≤ b.mod)) :
    (insertByMod x l).Pairwise (fun a b => a.mod ≤ b.mod) := by
  induction l with
  | nil => exact List.pairwise_singleton _ _
  | cons y ys ih =>
    rw [insertByMod]
    obtain ⟨hy, hys⟩ := List.pairwise_cons.mp h
    split
    · next hxy =>
      refine List.pairwise_cons.mpr ⟨?_, h⟩
      intro b hb
      rcases List.mem_cons.mp hb with hb | hb
      · exact hb ▸ hxy
      · exact le_trans hxy (hy b hb)
    · next hxy =>
      push_neg at hxy
      refine List.pairwise_cons.mpr ⟨?_, ih hys⟩
      intro b hb
      have := (insertByMod_perm x ys).mem_iff.mp hb
      rcases List.mem_cons.mp this with hb' | hb'
      · exact hb' ▸ le_of_lt hxy
      · exact hy b hb'

theorem sortByMod_pairwise (l : List FileInfo) :
    (sortByMod l).Pairwise (fun a b => a.mod ≤ b.mod) := by
  induction l with
  | nil => exact List.Pairwise.nil
  | cons x xs ih => exact insertByMod_pairwise ih

theorem collectFiles_mem {siteDir siteName : String}
    {entries : List DirEntry} {f : FileInfo} :
    f ∈ collectFiles siteDir siteName entries ↔
      ∃ e ∈ entries, e.isDir = false ∧ matchesBackup siteName e.name = true ∧
        e.statOk = true ∧
        f = { name := e.name, path := joinPath siteDir e.name, mod := e.mod } := by
  unfold collectFiles
  rw [List.mem_filterMap]
  constructor
  · rintro ⟨e, he, hfe⟩
    by_cases h1 : e.isDir
    · rw [if_pos h1] at hfe; exact absurd hfe (by simp)
    · rw [if_neg h1] at hfe
      by_cases h2 : matchesBackup siteName e.name
      · rw [if_neg (by simp [h2])] at hfe
        by_cases h3 : e.statOk
        · rw [if_neg (by simp [h3])] at hfe
          exact ⟨e, he, Bool.of_not_eq_true h1, h2, h3,
            (Option.some_inj.mp hfe).symm⟩
        · rw [if_pos (by simpa using h3)] at hfe
          exact absurd hfe (by simp)
      · rw [if_pos (by simpa using h2)] at hfe
        exact absurd hfe (by simp)
  · rintro ⟨e, he, h1, h2, h3, hf⟩
    refine ⟨e, he, ?_⟩
    rw [if_neg (by simp [h1]), if_neg (by simp [h2]), if_neg (by simp [h3]),
      hf]

theorem collectFiles_shape {siteDir siteName : String}
    {entries : List DirEntry} {f : FileInfo}
    (h : f ∈ collectFiles siteDir siteName entries) :
    matchesBackup siteName f.name = true ∧
      f.path = joinPath siteDir f.name := by
  obtain ⟨e, _, _, h2, _, hf⟩ := collectFiles_mem.mp h
  subst hf
  exact ⟨h2, rfl⟩

/-- C3: cleanup never deletes anything when `keep ≤ 0`; directory entries
and names outside the `backup_<siteName>_*.zip` convention are never
selected for deletion; when at most `keep` files match, nothing is
selected; and when more than `keep` match, the selection has exactly
`matching − keep` elements, all matching, each no newer than every
matching file that is kept, listed oldest first. -/
theorem C3_cleanup_retention (env : CleanupEnv) (siteDir siteName : String)
    (keep : Int) (entries : List DirEntry)
    (hl : env.listing = some entries)
    (huniq : ∀ a ∈ entries, ∀ b ∈ entries, a.name = b.name → a = b) :
    (keep ≤ 0 → CleanupSite env siteDir siteName keep =
      { err := false, toDelete := [], deleted := [] }) ∧
    (∀ e ∈ entries,
      (e.isDir = true ∨ matchesBackup siteName e.name = false) →
      joinPath siteDir e.name ∉
        (CleanupSite env siteDir siteName keep).toDelete.map FileInfo.path) ∧
    (((collectFiles siteDir siteName entries).length : Int) ≤ keep →
      (CleanupSite env siteDir siteName keep).toDelete = []) ∧
    (0 < keep → keep < ((collectFiles siteDir siteName entries).length : Int) →
      (CleanupSite env siteDir siteName keep).toDelete.length =
          (collectFiles siteDir siteName entries).length - keep.toNat ∧
        (∀ f ∈ (CleanupSite env siteDir siteName keep).toDelete,
          f ∈ collectFiles siteDir siteName entries) ∧
        (∀ f ∈ (CleanupSite env siteDir siteName keep).toDelete,
          ∀ g ∈ collectFiles siteDir siteName entries,
          g.path ∉ (CleanupSite env siteDir siteName keep).toDelete.map
            FileInfo.path → f.mod ≤ g.mod) ∧
        (CleanupSite env siteDir siteName keep).toDelete.Pairwise
          (fun a b => a.mod ≤ b.mod)) := by
  have hcleanup_pos : ∀ hk : ¬ keep ≤ 0,
      CleanupSite env siteDir siteName keep =
        (if ((collectFiles siteDir siteName entries).length : Int) ≤ keep
          then { err := false, toDelete := [], deleted := [] }
          else
            { err := false
              toDelete := (sortByMod (collectFiles siteDir siteName
                entries)).take ((collectFiles siteDir siteName
                  entries).length - keep.toNat)
              deleted := (((sortByMod (collectFiles siteDir siteName
                entries)).take ((collectFiles siteDir siteName
                  entries).length - keep.toNat)).map (·.path)).filter
                    fun p => decide (p ∉ env.removeFails) }) := by
    intro hk
    unfold CleanupSite
    rw [if_neg hk, hl]
  refine ⟨?_, ?_, ?_, ?_⟩
  · intro hk
    unfold CleanupSite
    rw [if_pos hk]
  · intro e he hbad hmem
    by_cases hk : keep ≤ 0
    · unfold CleanupSite at hmem
      rw [if_pos hk] at hmem
      simp at hmem
    · rw [hcleanup_pos hk] at hmem
      by_cases hle : ((collectFiles siteDir siteName entries).length : Int) ≤
          keep
      · rw [if_pos hle] at hmem
        simp at hmem
      · rw [if_neg hle] at hmem
        simp only [List.mem_map] at hmem
        obtain ⟨f, hf, hfp⟩ := hmem
        have hfF : f ∈ collectFiles siteDir siteName entries :=
          (sortByMod_perm _).subset (List.take_subset _ _ hf)
        obtain ⟨e', he', hd', hm', hs', hfe'⟩ := collectFiles_mem.mp hfF
        have hname : e'.name = e.name := by
          have : joinPath siteDir e'.name = joinPath siteDir e.name := by
            rw [← hfp, hfe']
          exact joinPath_right_inj _ _ _ this
        have : e' = e := huniq e' he' e he hname
        subst this
        rcases hbad with hbad | hbad
        · rw [hd'] at hbad; exact Bool.false_ne_true hbad
        · rw [hm'] at hbad; exact Bool.noConfusion hbad
  · intro hle
    by_cases hk : keep ≤ 0
    · unfold CleanupSite
      rw [if_pos hk]
    · rw [hcleanup_pos hk, if_pos hle]
  · intro hk0 hlt
    have hk : ¬ keep ≤ 0 := by omega
    have hle : ¬ ((collectFiles siteDir siteName entries).length : Int) ≤
        keep := by omega
    rw [hcleanup_pos hk, if_neg hle]
    set F := collectFiles siteDir siteName entries with hF
    set n := F.length with hn
    have hlen_sorted : (sortByMod F).length = n :=
      (sortByMod_perm F).length_eq
    have hkn : keep.toNat < n := by omega
    refine ⟨?_, ?_, ?_, ?_⟩
    · simp only [List.length_take, hlen_sorted]
      omega
    · intro f hf
      exact (sortByMod_perm F).subset (List.take_subset _ _ hf)
    · intro f hf g hg hgnot
      have hsplit : (sortByMod F).take (n - keep.toNat) ++
          (sortByMod F).drop (n - keep.toNat) = sortByMod F :=
        List.take_append_drop _ _
      have hpw := sortByMod_pairwise F
      rw [← hsplit] at hpw
      have hpw2 := (List.pairwise_append.mp hpw).2.2
      have hg_sorted : g ∈ sortByMod F := (sortByMod_perm F).mem_iff.mpr hg
      rw [← hsplit] at hg_sorted
      rcases List.mem_append.mp hg_sorted with hg' | hg'
      · exact absurd (List.mem_map.mpr ⟨g, hg', rfl⟩) hgnot
      · exact hpw2 f hf g hg'
    · exact List.Pairwise.sublist (List.take_sublist _ _) (sortByMod_pairwise F)

/-! ## C1, C6, C10: lemmas about the filesystem model -/

theorem fsLookup_fsMkdir (fs : FS) (d q : String) :
    fsLookup (fsMkdir fs d) q = fsLookup fs q := rfl

theorem lookup_cons_self (k v : String) (l : List (String × String)) :
    List.lookup k ((k, v) :: l) = some v := by
  simp [List.lookup]

theorem lookup_cons_ne (k a v : String) (l : List (String × String))
    (h : k ≠ a) : List.lookup k ((a, v) :: l) = List.lookup k l := by
  have hb : (k == a) = false := beq_eq_false_iff_ne.mpr h
  simp [List.lookup, hb]

theorem fsLookup_fsWrite_self (fs : FS) (p v : String) :
    fsLookup (fsWrite fs p v) p = some v :=
  lookup_cons_self p v fs.files

theorem fsLookup_fsWrite_ne (fs : FS) (p v q : String) (h : q ≠ p) :
    fsLookup (fsWrite fs p v) q = fsLookup fs q :=
  lookup_cons_ne q p v fs.files h

theorem lookup_filter_ne_self (l : List (String × String)) (p : String) :
    (l.filter fun q => decide (q.1 ≠ p)).lookup p = none := by
  induction l with
  | nil => rfl
  | cons a l ih =>
    rw [List.filter_cons]
    by_cases ha : a.1 = p
    · rw [if_neg (by simpa using ha)]
      exact ih
    · rw [if_pos (by simpa using ha)]
      cases a with
      | mk a1 a2 =>
        rw [lookup_cons_ne p a1 a2 _ (fun hq => ha (by simpa using hq.symm))]
        exact ih

theorem fsLookup_fsDel_self (fs : FS) (p : String) :
    fsLookup (fsDel fs p) p = none :=
  lookup_filter_ne_self fs.files p

theorem lookup_filter_ne_other (l : List (String × String)) (p q : String)
    (h : q ≠ p) :
    (l.filter fun r => decide (r.1 ≠ p)).lookup q = l.lookup q := by
  induction l with
  | nil => rfl
  | cons a l ih =>
    rw [List.filter_cons]
    cases a with
    | mk a1 a2 =>
      by_cases ha : a1 = p
      · rw [if_neg (by simpa using ha)]
        rw [lookup_cons_ne q a1 a2 _ (fun hq => h (hq.trans ha))]
        exact ih
      · rw [if_pos (by simpa using ha)]
        by_cases hq : q = a1
        · subst hq
          rw [lookup_cons_self, lookup_cons_self]
        · rw [lookup_cons_ne q a1 a2 _ hq, lookup_cons_ne q a1 a2 _ hq]
          exact ih

theorem fsLookup_fsDel_ne (fs : FS) (p q : String) (h : q ≠ p) :
    fsLookup (fsDel fs p) q = fsLookup fs q :=
  lookup_filter_ne_other fs.files p q h

theorem fsLookup_fsDelMany (fs : FS) (ps : List String) (q : String) :
    fsLookup (fsDelMany fs ps) q =
      if q ∈ ps then none else fsLookup fs q := by
  show (fs.files.filter fun r => decide (r.1 ∉ ps)).lookup q =
    if q ∈ ps then none else fs.files.lookup q
  induction fs.files with
  | nil => split <;> rfl
  | cons a l ih =>
    rw [List.filter_cons]
    cases a with
    | mk a1 a2 =>
      by_cases ha : a1 ∈ ps
      · rw [if_neg (by simpa using ha)]
        rw [ih]
        by_cases hqs : q ∈ ps
        · rw [if_pos hqs, if_pos hqs]
        · rw [if_neg hqs, if_neg hqs]
          rw [lookup_cons_ne q a1 a2 _
            (fun hq => hqs (hq ▸ ha))]
      · rw [if_pos (by simpa using ha)]
        by_cases hq : q = a1
        · subst hq
          rw [lookup_cons_self, if_neg ha, lookup_cons_self]
        · rw [lookup_cons_ne q a1 a2 _ hq, lookup_cons_ne q a1 a2 _ hq, ih]

theorem append_tmp_ne (p : String) : p ++ ".tmp" ≠ p := by
  intro h
  have hlen := congrArg (fun s => s.data.length) h
  simp only [data_append, List.length_append] at hlen
  have h4 : (".tmp" : String).data.length = 4 := rfl
  rw [h4] at hlen
  omega

theorem tmpPath_ne_outPath (cfg : Config) (site : Site) (ts : String) :
    tmpPathOf cfg site ts ≠ outPathOf cfg site ts :=
  append_tmp_ne (outPathOf cfg site ts)

/-- C1: whenever `RunOneSite` fails — at validation, `MkdirAll`, the HTTP
round trip, the status check, creating, writing, syncing or closing the
temp file, or the rename — neither the final archive path nor the
`<finalpath>.tmp` path holds a file afterwards (neither existed before),
and a file can appear at the final path only as the fully-downloaded
response body committed by the rename on the success path (which also
leaves no temp file behind). -/
theorem C1_no_partial_final_file (env : RunEnv) (fs : FS) (cfg : Config)
    (site : Site) (ts : String)
    (hOut : fsLookup fs (outPathOf cfg site ts) = none)
    (hTmp : fsLookup fs (tmpPathOf cfg site ts) = none) :
    ((RunOneSite env fs cfg site ts).res.isSome = true →
      fsLookup (RunOneSite env fs cfg site ts).fs
          (outPathOf cfg site ts) = none ∧
      fsLookup (RunOneSite env fs cfg site ts).fs
          (tmpPathOf cfg site ts) = none) ∧
    (∀ c, fsLookup (RunOneSite env fs cfg site ts).fs
        (outPathOf cfg site ts) = some c →
      ∃ resp, env.httpResult = some resp ∧ c = resp.body ∧
        (RunOneSite env fs cfg site ts).res = none) ∧
    ((RunOneSite env fs cfg site ts).res = none →
      fsLookup (RunOneSite env fs cfg site ts).fs
        (tmpPathOf cfg site ts) = none) := by
  have hOT : outPathOf cfg site ts ≠ tmpPathOf cfg site ts :=
    (tmpPath_ne_outPath cfg site ts).symm
  have hdel3 : ∀ body : String,
      fsLookup (fsDel (fsWrite (fsWrite (fsMkdir fs (siteDirOf cfg site))
        (tmpPathOf cfg site ts) "") (tmpPathOf cfg site ts) body)
        (tmpPathOf cfg site ts)) (outPathOf cfg site ts) = none := by
    intro body
    rw [fsLookup_fsDel_ne _ _ _ hOT, fsLookup_fsWrite_ne _ _ _ _ hOT,
      fsLookup_fsWrite_ne _ _ _ _ hOT, fsLookup_fsMkdir]
    exact hOut
  unfold RunOneSite
  by_cases h1 : trimSpace site.Name = ""
  · rw [if_pos h1]
    refine ⟨fun _ => ⟨hOut, hTmp⟩, fun c hc => ?_, fun hres => ?_⟩
    · rw [show fsLookup fs (outPathOf cfg site ts) = none from hOut] at hc
      cases hc
    · cases hres
  · rw [if_neg h1]
    by_cases h2 : trimSpace site.Url = ""
    · rw [if_pos h2]
      refine ⟨fun _ => ⟨hOut, hTmp⟩, fun c hc => ?_, fun hres => ?_⟩
      · rw [show fsLookup fs (outPathOf cfg site ts) = none from hOut] at hc
        cases hc
      · cases hres
    · rw [if_neg h2]
      by_cases h3 : ¬ env.mkdirOk
      · rw [if_pos h3]
        refine ⟨fun _ => ⟨hOut, hTmp⟩, fun c hc => ?_, fun hres => ?_⟩
        · rw [show fsLookup fs (outPathOf cfg site ts) = none from hOut] at hc
          cases hc
        · cases hres
      · rw [if_neg h3]
        cases henv : env.httpResult with
        | none =>
          dsimp only
          refine ⟨fun _ => ⟨hOut, hTmp⟩, fun c hc => ?_, fun hres => ?_⟩
          · rw [fsLookup_fsMkdir, hOut] at hc
            cases hc
          · cases hres
        | some resp =>
          dsimp only
          have hbase2 : ∀ (e : RunErr) (req : Bool) (fsx : FS),
              fsLookup fsx (outPathOf cfg site ts) = none →
              fsLookup fsx (tmpPathOf cfg site ts) = none →
              (((⟨some e, fsx, req⟩ : RunOut).res.isSome = true →
                fsLookup (⟨some e, fsx, req⟩ : RunOut).fs
                    (outPathOf cfg site ts) = none ∧
                fsLookup (⟨some e, fsx, req⟩ : RunOut).fs
                    (tmpPathOf cfg site ts) = none) ∧
              (∀ c, fsLookup (⟨some e, fsx, req⟩ : RunOut).fs
                  (outPathOf cfg site ts) = some c →
                ∃ r, some resp = some r ∧ c = r.body ∧
                  (⟨some e, fsx, req⟩ : RunOut).res = none) ∧
              ((⟨some e, fsx, req⟩ : RunOut).res = none →
                fsLookup (⟨some e, fsx, req⟩ : RunOut).fs
                  (tmpPathOf cfg site ts) = none)) := by
            intro e req fsx hO hT
            refine ⟨fun _ => ⟨hO, hT⟩, fun c hc => ?_, fun hres => ?_⟩
            · rw [show fsLookup fsx (outPathOf cfg site ts) = none
                from hO] at hc
              cases hc
            · cases hres
          by_cases h4 : resp.status < 200 ∨ 300 ≤ resp.status
          · rw [if_pos h4]
            exact hbase2 _ _ (fsMkdir fs (siteDirOf cfg site)) hOut hTmp
          · rw [if_neg h4]
            by_cases h5 : ¬ env.createOk
            · rw [if_pos h5]
              exact hbase2 _ _ (fsMkdir fs (siteDirOf cfg site)) hOut hTmp
            · rw [if_neg h5]
              by_cases h6 : ¬ env.copyOk
              · rw [if_pos h6]
                refine hbase2 _ _ _ ?_ (fsLookup_fsDel_self _ _)
                rw [fsLookup_fsDel_ne _ _ _ hOT,
                  fsLookup_fsWrite_ne _ _ _ _ hOT, fsLookup_fsMkdir]
                exact hOut
              · rw [if_neg h6]
                by_cases h7 : ¬ env.syncOk
                · rw [if_pos h7]
                  exact hbase2 _ _ _ (hdel3 resp.body)
                    (fsLookup_fsDel_self _ _)
                · rw [if_neg h7]
                  by_cases h8 : ¬ env.closeOk
                  · rw [if_pos h8]
                    exact hbase2 _ _ _ (hdel3 resp.body)
                      (fsLookup_fsDel_self _ _)
                  · rw [if_neg h8]
                    by_cases h9 : ¬ env.renameOk
                    · rw [if_pos h9]
                      exact hbase2 _ _ _ (hdel3 resp.body)
                        (fsLookup_fsDel_self _ _)
                    · rw [if_neg h9]
                      refine ⟨fun hs => ?_, fun c hc => ?_, fun _ => ?_⟩
                      · simp at hs
                      · rw [show (⟨none, _, true⟩ : RunOut).fs = _ from rfl,
                          fsLookup_fsDelMany] at hc
                        refine ⟨resp, rfl, ?_, rfl⟩
                        by_cases hin : outPathOf cfg site ts ∈
                            (CleanupSite env.cleanup (siteDirOf cfg site)
                              (trimSpace site.Name) cfg.Retention).deleted
                        · rw [if_pos hin] at hc
                          cases hc
                        · rw [if_neg hin, fsLookup_fsWrite_self] at hc
                          exact (Option.some_inj.mp hc).symm
                      · rw [show (⟨none, _, true⟩ : RunOut).fs = _ from rfl,
                          fsLookup_fsDelMany]
                        split
                        · rfl
                        · rw [fsLookup_fsWrite_ne _ _ _ _
                            (tmpPath_ne_outPath cfg site ts)]
                          exact fsLookup_fsDel_self _ _

/-- C10: for a site with non-empty trimmed name and url, the backup
directory is created exactly when `MkdirAll` succeeds and control reaches
the HTTP request exactly then — so the directory exists afterwards even
when the download itself fails — and a failed run changes no file at any
path other than the (removed) temp path: directory creation is the one
filesystem effect a failed download leaves behind. -/
theorem C10_mkdir_before_request (env : RunEnv) (fs : FS) (cfg : Config)
    (site : Site) (ts : String)
    (hname : trimSpace site.Name ≠ "") (hurl : trimSpace site.Url ≠ "") :
    (RunOneSite env fs cfg site ts).reachedRequest = env.mkdirOk ∧
    (env.mkdirOk = true →
      siteDirOf cfg site ∈ (RunOneSite env fs cfg site ts).fs.dirs) ∧
    ((RunOneSite env fs cfg site ts).res.isSome = true →
      ∀ q, q ≠ tmpPathOf cfg site ts →
        fsLookup (RunOneSite env fs cfg site ts).fs q = fsLookup fs q) := by
  unfold RunOneSite
  rw [if_neg hname, if_neg hurl]
  by_cases h3 : ¬ env.mkdirOk
  · rw [if_pos h3]
    refine ⟨?_, fun hmk => absurd hmk h3, fun _ => fun q _ => rfl⟩
    simp only [Bool.not_eq_true] at h3
    exact h3.symm
  · rw [if_neg h3]
    have hmk : env.mkdirOk = true := not_not.mp h3
    have hmem : siteDirOf cfg site ∈
        (fsMkdir fs (siteDirOf cfg site)).dirs :=
      List.mem_cons_self _ _
    cases henv : env.httpResult with
    | none =>
      dsimp only
      exact ⟨hmk.symm, fun _ => hmem, fun _ => fun q _ => rfl⟩
    | some resp =>
      dsimp only
      by_cases h4 : resp.status < 200 ∨ 300 ≤ resp.status
      · rw [if_pos h4]
        exact ⟨hmk.symm, fun _ => hmem, fun _ => fun q _ => rfl⟩
      · rw [if_neg h4]
        by_cases h5 : ¬ env.createOk
        · rw [if_pos h5]
          exact ⟨hmk.symm, fun _ => hmem, fun _ => fun q _ => rfl⟩
        · rw [if_neg h5]
          by_cases h6 : ¬ env.copyOk
          · rw [if_pos h6]
            refine ⟨hmk.symm, fun _ => hmem, fun _ => fun q hq => ?_⟩
            rw [fsLookup_fsDel_ne _ _ _ hq, fsLookup_fsWrite_ne _ _ _ _ hq,
              fsLookup_fsMkdir]
          · rw [if_neg h6]
            have hframe : ∀ q, q ≠ tmpPathOf cfg site ts →
                fsLookup (fsDel (fsWrite (fsWrite
                  (fsMkdir fs (siteDirOf cfg site)) (tmpPathOf cfg site ts)
                    "") (tmpPathOf cfg site ts) resp.body)
                  (tmpPathOf cfg site ts)) q = fsLookup fs q := by
              intro q hq
              rw [fsLookup_fsDel_ne _ _ _ hq,
                fsLookup_fsWrite_ne _ _ _ _ hq,
                fsLookup_fsWrite_ne _ _ _ _ hq, fsLookup_fsMkdir]
            by_cases h7 : ¬ env.syncOk
            · rw [if_pos h7]
              exact ⟨hmk.symm, fun _ => hmem, fun _ => hframe⟩
            · rw [if_neg h7]
              by_cases h8 : ¬ env.closeOk
              · rw [if_pos h8]
                exact ⟨hmk.symm, fun _ => hmem, fun _ => hframe⟩
              · rw [if_neg h8]
                by_cases h9 : ¬ env.renameOk
                · rw [if_pos h9]
                  exact ⟨hmk.symm, fun _ => hmem, fun _ => hframe⟩
                · rw [if_neg h9]
                  refine ⟨hmk.symm, fun _ => hmem, fun hs => ?_⟩
                  simp at hs

/-- C6: when every download step succeeds, `RunOneSite` reports success
whatever the retention environment does (including a failing `ReadDir` or
failing removals); and inside cleanup the error result and the deletion
selection are independent of which removals fail — every selected file's
removal is attempted, and exactly the individually-failing removals are
the ones not performed. -/
theorem C6_cleanup_best_effort (env : RunEnv) (fs : FS) (cfg : Config)
    (site : Site) (ts : String) (resp : HttpResp)
    (hname : trimSpace site.Name ≠ "") (hurl : trimSpace site.Url ≠ "")
    (hmk : env.mkdirOk = true) (hresp : env.httpResult = some resp)
    (h2xx : 200 ≤ resp.status ∧ resp.status < 300)
    (hcr : env.createOk = true) (hcp : env.copyOk = true)
    (hsy : env.syncOk = true) (hcl : env.closeOk = true)
    (hrn : env.renameOk = true) :
    (RunOneSite env fs cfg site ts).res = none ∧
    (∀ (cenv : CleanupEnv) (sd sn : String) (k : Int),
      (CleanupSite cenv sd sn k).err =
        (CleanupSite { listing := cenv.listing, removeFails := [] }
          sd sn k).err ∧
      (CleanupSite cenv sd sn k).toDelete =
        (CleanupSite { listing := cenv.listing, removeFails := [] }
          sd sn k).toDelete ∧
      (CleanupSite cenv sd sn k).deleted =
        ((CleanupSite cenv sd sn k).toDelete.map FileInfo.path).filter
          (fun p => decide (p ∉ cenv.removeFails))) := by
  constructor
  · unfold RunOneSite
    rw [if_neg hname, if_neg hurl, if_neg (show ¬¬ env.mkdirOk = true by
      simp [hmk]), hresp]
    dsimp only
    rw [if_neg (show ¬(resp.status < 200 ∨ 300 ≤ resp.status) by omega),
      if_neg (show ¬¬ env.createOk = true by simp [hcr]),
      if_neg (show ¬¬ env.copyOk = true by simp [hcp]),
      if_neg (show ¬¬ env.syncOk = true by simp [hsy]),
      if_neg (show ¬¬ env.closeOk = true by simp [hcl]),
      if_neg (show ¬¬ env.renameOk = true by simp [hrn])]
  · intro cenv sd sn k
    unfold CleanupSite
    by_cases hk : k ≤ 0
    · rw [if_pos hk, if_pos hk]
      exact ⟨rfl, rfl, rfl⟩
    · rw [if_neg hk, if_neg hk]
      cases hl : cenv.listing with
      | none => exact ⟨rfl, rfl, rfl⟩
      | some entries =>
        dsimp only
        split
        · exact ⟨rfl, rfl, rfl⟩
        · exact ⟨rfl, rfl, rfl⟩

/-! ## Concrete sample world for the witnesses -/

def entriesSample : List DirEntry :=
  [{ name := "backup_s_1.zip", isDir := false, statOk := true, mod := 5 },
   { name := "backup_s_2.zip", isDir := false, statOk := true, mod := 3 },
   { name := "other.txt", isDir := false, statOk := true, mod := 1 },
   { name := "backup_s_3.zip", isDir := false, statOk := true, mod := 9 }]

def cleanupEnvSample : CleanupEnv :=
  { listing := some entriesSample, removeFails := ["d/backup_s_2.zip"] }

def cfgRun : Config :=
  { WebListenAddr := "127.0.0.1:8123", IntervalMinutes := 5,
    BackupFolder := "B", Retention := 1,
    Sites := [{ Enabled := true, Name := "s", Url := "http://x" }] }

def siteRun : Site := { Enabled := true, Name := "s", Url := "http://x" }

def fsEmpty : FS := { dirs := [], files := [] }

def tsRun : String := "10-01-2026_21-22-34"

/-- A world where everything works except the server answers HTTP 500. -/
def envFail500 : RunEnv :=
  { mkdirOk := true, httpResult := some { status := 500, body := "boom" },
    createOk := true, copyOk := true, syncOk := true, closeOk := true,
    renameOk := true, cleanup := cleanupEnvSample }

/-- A world where the download succeeds and retention later hits a
failing removal. -/
def envSuccess : RunEnv :=
  { mkdirOk := true, httpResult := some { status := 200, body := "DATA" },
    createOk := true, copyOk := true, syncOk := true, closeOk := true,
    renameOk := true, cleanup := cleanupEnvSample }

/-- Concrete instance: after an HTTP 500, neither the final path nor the
temp path holds a file. -/
theorem C1_no_partial_final_file_witness :
    fsLookup (RunOneSite envFail500 fsEmpty cfgRun siteRun tsRun).fs
        (outPathOf cfgRun siteRun tsRun) = none ∧
    fsLookup (RunOneSite envFail500 fsEmpty cfgRun siteRun tsRun).fs
        (tmpPathOf cfgRun siteRun tsRun) = none :=
  (C1_no_partial_final_file envFail500 fsEmpty cfgRun siteRun tsRun
    rfl rfl).1 (by decide)

/-- Concrete instance: with 3 matching archives and `keep = 1`, exactly
2 files are selected for deletion. -/
theorem C3_cleanup_retention_witness :
    (CleanupSite cleanupEnvSample "d" "s" 1).toDelete.length =
      (collectFiles "d" "s" entriesSample).length - (1 : Int).toNat :=
  ((C3_cleanup_retention cleanupEnvSample "d" "s" 1 entriesSample rfl
    (by decide)).2.2.2 (by decide) (by decide)).1

/-- Concrete instance: the backup succeeds even though retention then
fails to remove one of the files it selected. -/
theorem C6_cleanup_best_effort_witness :
    (RunOneSite envSuccess fsEmpty cfgRun siteRun tsRun).res = none :=
  (C6_cleanup_best_effort envSuccess fsEmpty cfgRun siteRun tsRun
    { status := 200, body := "DATA" } (by decide) (by decide) rfl rfl
    (by decide) rfl rfl rfl rfl rfl).1

/-- Concrete instance: the site directory exists after the failed (500)
download. -/
theorem C10_mkdir_before_request_witness :
    siteDirOf cfgRun siteRun ∈
      (RunOneSite envFail500 fsEmpty cfgRun siteRun tsRun).fs.dirs :=
  (C10_mkdir_before_request envFail500 fsEmpty cfgRun siteRun tsRun
    (by decide) (by decide)).2.1 rfl

end HttpBackupGo
